import Mathlib

/-!
Verification of the gps_teseo_lib request/reply protocol engine.

The C++ sources (src/teseo/teseo.cpp, src/callbackmanager/callbackmanager.h)
are shallowly embedded below: std::string values become `List Char`,
std::size_t arithmetic is carried out modulo 2^64 (std::string::npos is
2^64 - 1), the parse loop becomes a fuel-indexed recursion where the fuel
is exactly the remaining number of loop iterations (maxelements -
vector_index), and the callback slots become optional handler values.
-/

/-- Word size of the target platform: std::size_t arithmetic is modulo 2^64. -/
def SZ : Nat := 2 ^ 64

/-- std::string::npos, the value 2^64 - 1. -/
def npos : Nat := SZ - 1

/-- size_t addition, wrapping modulo 2^64. -/
def addSz (a b : Nat) : Nat := (a + b) % SZ

/-- size_t subtraction, wrapping modulo 2^64 (both arguments below 2^64 in C++). -/
def subSz (a b : Nat) : Nat := (a + SZ - b) % SZ

/-- Characters of a string literal. -/
def chars (s : String) : List Char := s.data

/-- The two byte line separator used by the Teseo wire protocol. -/
def crlf : List Char := ['\r', '\n']

/-- std::string::substr(pos, count): the count characters starting at pos,
clamped to the end of the string (every call site has pos ≤ length, so the
out_of_range exception of C++ is never raised). -/
def substr (l : List Char) (pos count : Nat) : List Char := (l.drop pos).take count

/-- Scan a character list for the first occurrence of the two byte
separator; returns the offset of the match. Models the search done by
std::string::find("\r\n", pos) relative to position pos. -/
def scanCRLF : List Char → Option Nat
  | [] => none
  | [_] => none
  | a :: b :: t => if a = '\r' ∧ b = '\n' then some 0 else (scanCRLF (b :: t)).map (· + 1)

/-- std::string::find("\r\n", pos): absolute index of the first separator at
or after pos, or npos when there is none. -/
def findCRLF (s : List Char) (pos : Nat) : Nat :=
  match scanCRLF (s.drop pos) with
  | some i => pos + i
  | none => npos

/-- Whether a character list contains the two byte separator as a substring. -/
def hasCRLF : List Char → Bool
  | [] => false
  | [_] => false
  | a :: b :: t => (a = '\r' && b = '\n') || hasCRLF (b :: t)

/-- Helper for the general substring search of std::string::find(str). -/
def findSubAux (pat : List Char) : List Char → Nat → Option Nat
  | [], i => if pat.isPrefixOf [] then some i else none
  | c :: t, i => if pat.isPrefixOf (c :: t) then some i else findSubAux pat t (i + 1)

/-- std::string::find(pat): index of the first occurrence of pat, or npos. -/
def findSub (s pat : List Char) : Nat :=
  match findSubAux pat s 0 with
  | some i => i
  | none => npos

namespace teseo

/-- A std::pair holding a NMEA command (`first`) and its reply signature
validation string (`second`); typedef nmea_rr of the source. -/
structure nmea_rr where
  first : List Char
  second : List Char
deriving DecidableEq

/-- nmea_rr teseo::gll of teseo.cpp. -/
def gll : nmea_rr := ⟨chars ("$PSTMNMEAREQUEST,100000,0\r\n"), chars ("GLL,")⟩

/-- nmea_rr teseo::gsv of teseo.cpp. -/
def gsv : nmea_rr := ⟨chars ("$PSTMNMEAREQUEST,80000,0\r\n"), chars ("GSV,")⟩

/-- nmea_rr teseo::gsa of teseo.cpp. -/
def gsa : nmea_rr := ⟨chars ("$PSTMNMEAREQUEST,4,0\r\n"), chars ("GSA,")⟩

/-- nmea_rr teseo::gga of teseo.cpp. -/
def gga : nmea_rr := ⟨chars ("$PSTMNMEAREQUEST,2,0\r\n"), chars ("GGA,")⟩

/-- nmea_rr teseo::rmc of teseo.cpp. -/
def rmc : nmea_rr := ⟨chars ("$PSTMNMEAREQUEST,40,0\r\n"), chars ("RMC,")⟩

/-- nmea_rr teseo::vtg of teseo.cpp. -/
def vtg : nmea_rr := ⟨chars ("$PSTMNMEAREQUEST,10,0\r\n"), chars ("VTG,")⟩

/-- command.first.substr(0, command.first.length()-2): the request string
with its trailing two byte terminator stripped, as computed at the status
line check of parse_multiline_reply. -/
def echoOf (command : nmea_rr) : List Char :=
  substr command.first 0 (subSz command.first.length 2)

/-- The for loop of teseo::parse_multiline_reply (teseo.cpp lines 73-93).
Arguments after the fixed command and buffer: remaining iterations
(maxelements - vector_index), string_index, vector_index, valid, and the
output array. Returns the final strings, vector_index and valid. -/
def parseLoopAux (command : nmea_rr) (s : List Char) :
    Nat → Nat → Nat → Bool → List (List Char) → List (List Char) × Nat × Bool
  | 0, _, vi, valid, strings => (strings, vi, valid)
  | fuel + 1, si, vi, _, strings =>
    let nsi := findCRLF s si
    if nsi = subSz s.length 2 then
      (strings, vi, (echoOf command).isPrefixOf (substr s si (subSz s.length si)))
    else
      let sent := substr s si (subSz (addSz nsi 2) si)
      let strings' := strings.set vi sent
      let valid' := decide (7 ≤ sent.length) && command.second.isPrefixOf (substr sent 3 4)
      if valid' then parseLoopAux command s fuel (addSz nsi 2) (vi + 1) valid' strings'
      else (strings', 0, valid')

/-- std::for_each(strings.begin() + count, strings.end(), clear): every
slot at index ≥ count is replaced by the empty string. -/
def clearFrom (l : List (List Char)) (count : Nat) : List (List Char) :=
  l.take count ++ List.replicate (l.length - count) []

/-- bool teseo::parse_multiline_reply(strings, s, count, command) of
teseo.cpp lines 61-98. Returns (final contents of strings, count, return
value). -/
def parse_multiline_reply (strings : List (List Char)) (s : List Char)
    (command : nmea_rr) : List (List Char) × Nat × Bool :=
  let r := parseLoopAux command s strings.length 0 0 false strings
  (clearFrom r.1 r.2.1, r.2.1, r.2.2)

/-- Start offset of the i-th line scanned by the parse loop: 0 for the
first line, and after each line the cursor skips past the separator that
was found (string_index = new_string_index + 2). -/
def lineStart (s : List Char) : Nat → Nat
  | 0 => 0
  | i + 1 => addSz (findCRLF s (lineStart s i)) 2

/-- The i-th line extracted by the parse loop: s.substr(string_index,
(new_string_index + 2) - string_index), separator included. -/
def lineAt (s : List Char) (i : Nat) : List Char :=
  substr s (lineStart s i) (subSz (addSz (findCRLF s (lineStart s i)) 2) (lineStart s i))

/-- Observable outcome of teseo::ask_nmea: the strings written through the
Write slot, the reply handed back through the s parameter, the returned
validity flag, and the final contents of the driver's two slot scratch
array single_line_parser. -/
structure ask_result where
  writes : List (List Char)
  reply : List Char
  valid : Bool
  parsed : List (List Char)
deriving DecidableEq

/-- bool teseo::ask_nmea(command, s) of teseo.cpp lines 111-119, run on a
freshly constructed driver (single_line_parser holds two empty strings)
whose Write slot records the written bytes and whose Read slot stores
readBytes into s. -/
def ask_nmea (command : nmea_rr) (readBytes : List Char) : ask_result :=
  let r := parse_multiline_reply [[], []] readBytes command
  ⟨[command.first], r.1.getD 0 [], r.2.2, r.1⟩

/-- bool teseo::ask_gll(s) of teseo.cpp lines 130-132. -/
def ask_gll (readBytes : List Char) : ask_result := ask_nmea gll readBytes

/-- The echo token searched for by the restart wait loop of teseo::init:
the argument of s.find at teseo.cpp line 58. -/
def restartToken : List Char := chars ("$PSTMGPSRESTART")

/-- The continuation condition of the do/while loop ending teseo::init:
s.length() is nonzero and s.find of the restart token is npos. -/
def restartContinue (s : List Char) : Bool :=
  decide (s.length ≠ 0) && (findSub s restartToken == npos)

/-- The do/while restart wait loop of teseo::init (teseo.cpp lines 54-58):
read f i into s and repeat while the continuation condition holds. Returns
the index of the read at which the loop exits, or none when fuel
iterations did not reach the exit. -/
def restartWait (f : Nat → List Char) : Nat → Nat → Option Nat
  | 0, _ => none
  | fuel + 1, i => if restartContinue (f i) then restartWait f fuel (i + 1) else some i

/-- The statements of teseo::init in source order: three precondition
assertions, the reset callback, five fire and forget writes, and the
restart wait loop (teseo.cpp lines 16-59). -/
inductive InitAct where
  | assertWriter : InitAct
  | assertReader : InitAct
  | assertResetter : InitAct
  | reset : InitAct
  | send : List Char → InitAct
  | restartLoop : InitAct

/-- teseo::init as the list of its statements. -/
def initProgram : List InitAct :=
  [InitAct.assertWriter, InitAct.assertReader, InitAct.assertResetter,
   InitAct.reset,
   InitAct.send (chars ("$PSTMGPSSUSPEND\r\n")),
   InitAct.send (chars ("$PSTMCFGMSGL,0,1,0,0\r\n")),
   InitAct.send (chars ("$PSTMCFGMSGL,3,1,0,0\r\n")),
   InitAct.send (chars ("$PSTMSETPAR,1227,1,2\r\n")),
   InitAct.send (chars ("$PSTMGPSRESTART\r\n")),
   InitAct.restartLoop]

/-- Observable outcome of running teseo::init: whether an assertion failed
(a contract violation aborting execution), how many times the Reset slot
fired, the strings written through the Write slot, and where the restart
wait loop stopped. -/
structure InitOutcome where
  violated : Bool
  resets : Nat
  writes : List (List Char)
  loopStop : Option Nat
deriving DecidableEq

/-- Interpreter for the init statements: a failed assertion aborts the
remaining statements with violated = true; the other statements perform
their effect and continue. -/
def runInit (wArmed rArmed resArmed : Bool) (f : Nat → List Char) (fuel : Nat) :
    List InitAct → InitOutcome → InitOutcome
  | [], o => o
  | InitAct.assertWriter :: rest, o =>
    if wArmed then runInit wArmed rArmed resArmed f fuel rest o
    else ⟨true, o.resets, o.writes, o.loopStop⟩
  | InitAct.assertReader :: rest, o =>
    if rArmed then runInit wArmed rArmed resArmed f fuel rest o
    else ⟨true, o.resets, o.writes, o.loopStop⟩
  | InitAct.assertResetter :: rest, o =>
    if resArmed then runInit wArmed rArmed resArmed f fuel rest o
    else ⟨true, o.resets, o.writes, o.loopStop⟩
  | InitAct.reset :: rest, o =>
    runInit wArmed rArmed resArmed f fuel rest ⟨o.violated, o.resets + 1, o.writes, o.loopStop⟩
  | InitAct.send msg :: rest, o =>
    runInit wArmed rArmed resArmed f fuel rest ⟨o.violated, o.resets, o.writes ++ [msg], o.loopStop⟩
  | InitAct.restartLoop :: rest, o =>
    runInit wArmed rArmed resArmed f fuel rest ⟨o.violated, o.resets, o.writes, restartWait f fuel 0⟩

/-- A well formed data sentence for a command: a separator free body
followed by the two byte separator, passing the parser's validity test
(length at least 7 and the descriptor signature at offset 3). -/
def ValidSent (command : nmea_rr) (d : List Char) : Prop :=
  (∃ b, d = b ++ crlf ∧ hasCRLF b = false) ∧
  (decide (7 ≤ d.length) && command.second.isPrefixOf (substr d 3 4)) = true

/-- The successive writes strings[k] = d0, strings[k+1] = d1, ... performed
by the data line iterations of the parse loop. -/
def writeSlots : List (List Char) → Nat → List (List Char) → List (List Char)
  | strs, _, [] => strs
  | strs, k, d :: ds => writeSlots (strs.set k d) (k + 1) ds

/-- void teseo::init() (teseo.cpp lines 16-59), over the armed state of the
three slots, a Read slot handing back f 0, f 1, ... on successive reads,
and fuel bounding the observed restart wait iterations. -/
def init (wArmed rArmed resArmed : Bool) (f : Nat → List Char) (fuel : Nat) : InitOutcome :=
  runInit wArmed rArmed resArmed f fuel initProgram ⟨false, 0, [], none⟩

end teseo

namespace callbackmanager

/-- Callback<void, Args...>::call of callbackmanager.h lines 36-50: the
handler slot is an optional function, modelled as a state transformer so
an invocation is observable. A null handler returns immediately, leaving
the state untouched. -/
def callVoid {α σ : Type} (handler : Option (α → σ → σ)) (a : α) (st : σ) : σ :=
  match handler with
  | none => st
  | some h => h a st

/-- The arithmetic return branch of Callback::call: a null handler returns
0 without invoking anything. -/
def callArith {α σ : Type} (handler : Option (α → σ → σ × Int)) (a : α) (st : σ) : σ × Int :=
  match handler with
  | none => (st, 0)
  | some h => h a st

end callbackmanager

/-- size_t addition below the word size does not wrap. -/
lemma addSz_eq {a b : Nat} (h : a + b < SZ) : addSz a b = a + b := by
  simp [addSz, Nat.mod_eq_of_lt h]

/-- size_t subtraction of a smaller value does not wrap. -/
lemma subSz_eq {a b : Nat} (hba : b ≤ a) (ha : a < SZ) : subSz a b = a - b := by
  have h1 : a + SZ - b = a - b + SZ := by omega
  have h2 : a - b < SZ := by omega
  simp [subSz, h1, Nat.add_mod_right, Nat.mod_eq_of_lt h2]

/-- A separator free list followed by the separator scans to the length of
that list. -/
lemma hasCRLF_cons {c : Char} {l : List Char} (h : hasCRLF (c :: l) = false) :
    hasCRLF l = false := by
  cases l with
  | nil => rfl
  | cons d t =>
    rw [hasCRLF] at h
    exact (Bool.or_eq_false_iff.mp h).2

lemma scanCRLF_append {b : List Char} (rest : List Char) (hb : hasCRLF b = false) :
    scanCRLF (b ++ '\r' :: '\n' :: rest) = some b.length := by
  induction b with
  | nil => simp [scanCRLF]
  | cons c b' ih =>
    have hb' : hasCRLF b' = false := hasCRLF_cons hb
    cases b' with
    | nil =>
      have hne : ¬('\r' : Char) = '\n' := by decide
      simp [scanCRLF, hne]
    | cons c' b'' =>
      have hpair : ¬(c = '\r' ∧ c' = '\n') := by
        rw [hasCRLF] at hb
        rcases Bool.or_eq_false_iff.mp hb with ⟨h1, -⟩
        intro ⟨e1, e2⟩
        rw [e1, e2] at h1
        simp at h1
      have : scanCRLF (c :: c' :: (b'' ++ '\r' :: '\n' :: rest))
          = (scanCRLF (c' :: (b'' ++ '\r' :: '\n' :: rest))).map (· + 1) := by
        rw [scanCRLF, if_neg hpair]
      simp only [List.cons_append] at ih ⊢
      rw [this, ih hb']
      simp

/-- Locating the separator when the remaining buffer is a separator free
chunk, the separator, and a remainder; also fixes the buffer length. -/
lemma findCRLF_of_drop {s : List Char} {p : Nat} {b rest : List Char}
    (hdrop : s.drop p = b ++ '\r' :: '\n' :: rest) (hb : hasCRLF b = false) :
    findCRLF s p = p + b.length ∧ s.length = p + b.length + 2 + rest.length := by
  have h1 : findCRLF s p = p + b.length := by
    rw [findCRLF, hdrop, scanCRLF_append rest hb]
  have h2 : (s.drop p).length = s.length - p := by simp
  rw [hdrop] at h2
  simp at h2
  refine ⟨h1, ?_⟩
  omega

namespace teseo

lemma writeSlots_eq : ∀ (ds strs : List (List Char)) (k : Nat),
    k + ds.length ≤ strs.length →
    writeSlots strs k ds = strs.take k ++ ds ++ strs.drop (k + ds.length) := by
  intro ds
  induction ds with
  | nil => intro strs k _; simp [writeSlots]
  | cons d ds ih =>
    intro strs k hk
    simp only [List.length_cons] at hk
    have hklt : k < strs.length := by omega
    rw [writeSlots, ih (strs.set k d) (k + 1) (by simp; omega)]
    rw [List.set_eq_take_cons_drop d hklt]
    have h1 : ((strs.take k ++ d :: strs.drop (k + 1))).take (k + 1)
        = strs.take k ++ [d] := by
      have hlen : (strs.take k).length = k := by simp; omega
      rw [show k + 1 = (strs.take k).length + 1 by rw [hlen]]
      rw [List.take_append]
      simp
    have h2 : ((strs.take k ++ d :: strs.drop (k + 1))).drop (k + 1 + ds.length)
        = strs.drop (k + (ds.length + 1)) := by
      have hlen : (strs.take k ++ [d]).length = k + 1 := by simp; omega
      have hsplit : strs.take k ++ d :: strs.drop (k + 1)
          = (strs.take k ++ [d]) ++ strs.drop (k + 1) := by simp
      rw [hsplit, show k + 1 + ds.length = (strs.take k ++ [d]).length + ds.length by rw [hlen]]
      rw [List.drop_append]
      rw [List.drop_drop]
      congr 1
      omega
    rw [h1, h2]
    simp

lemma writeSlots_length : ∀ (ds strs : List (List Char)) (k : Nat),
    (writeSlots strs k ds).length = strs.length := by
  intro ds
  induction ds with
  | nil => intro strs k; rfl
  | cons d ds ih => intro strs k; rw [writeSlots, ih]; simp

/-- One data line iteration of the parse loop on a valid sentence. -/
lemma parseLoopAux_step_valid (command : nmea_rr) (s : List Char) (hs : s.length < SZ)
    {p : Nat} {b rest : List Char}
    (hdrop : s.drop p = (b ++ crlf) ++ rest) (hb : hasCRLF b = false) (hrest : rest ≠ [])
    (hchk : (decide (7 ≤ (b ++ crlf).length)
      && command.second.isPrefixOf (substr (b ++ crlf) 3 4)) = true)
    (fuel k : Nat) (v0 : Bool) (strs : List (List Char)) :
    parseLoopAux command s (fuel + 1) p k v0 strs
      = parseLoopAux command s fuel (p + b.length + 2) (k + 1) true
          (strs.set k (b ++ crlf)) := by
  have hdrop' : s.drop p = b ++ '\r' :: '\n' :: rest := by
    simpa [crlf] using hdrop
  obtain ⟨hfind, hlen⟩ := findCRLF_of_drop hdrop' hb
  have hrestpos : 0 < rest.length := List.length_pos.mpr hrest
  have hcond : ¬(findCRLF s p = subSz s.length 2) := by
    rw [hfind, subSz_eq (by omega) hs]
    omega
  have hadd : addSz (findCRLF s p) 2 = p + b.length + 2 := by
    rw [hfind, addSz_eq (by omega)]
  have hsub : subSz (addSz (findCRLF s p) 2) p = b.length + 2 := by
    rw [hadd, subSz_eq (by omega) (by omega)]
    omega
  have hsent : substr s p (subSz (addSz (findCRLF s p) 2) p) = b ++ crlf := by
    rw [hsub]
    simp only [substr]
    rw [hdrop']
    rw [show b ++ '\r' :: '\n' :: rest = (b ++ crlf) ++ rest by simp [crlf]]
    exact List.take_left' (by simp [crlf])
  rw [parseLoopAux]
  simp only [if_neg hcond, hsent, hchk]
  simp [hadd]

/-- The status line iteration of the parse loop: the remaining bytes are a
separator free chunk ended by the separator at the very end of the buffer,
so the loop breaks and validates the echo. -/
lemma parseLoopAux_step_status (command : nmea_rr) (s : List Char) (hs : s.length < SZ)
    {p : Nat} {u : List Char}
    (hdrop : s.drop p = u ++ crlf) (hu : hasCRLF u = false)
    (fuel k : Nat) (v0 : Bool) (strs : List (List Char)) :
    parseLoopAux command s (fuel + 1) p k v0 strs
      = (strs, k, (echoOf command).isPrefixOf (u ++ crlf)) := by
  have hdrop' : s.drop p = u ++ '\r' :: '\n' :: [] := by
    simpa [crlf] using hdrop
  obtain ⟨hfind, hlen⟩ := findCRLF_of_drop hdrop' hu
  simp only [List.length_nil] at hlen
  have hcond : findCRLF s p = subSz s.length 2 := by
    rw [hfind, subSz_eq (by omega) hs]
    omega
  have htail : substr s p (subSz s.length p) = u ++ crlf := by
    have hsub : subSz s.length p = s.length - p := subSz_eq (by omega) hs
    rw [hsub]
    simp only [substr]
    rw [hdrop]
    have : s.length - p = (u ++ crlf).length := by simp [crlf]; omega
    rw [this, List.take_length]
  rw [parseLoopAux]
  simp only [if_pos hcond, htail]

/-- The aborting iteration of the parse loop: a separator terminated data
sentence that fails the validity check resets vector_index to 0 and breaks. -/
lemma parseLoopAux_step_invalid (command : nmea_rr) (s : List Char) (hs : s.length < SZ)
    {p : Nat} {b rest : List Char}
    (hdrop : s.drop p = (b ++ crlf) ++ rest) (hb : hasCRLF b = false) (hrest : rest ≠ [])
    (hbad : (decide (7 ≤ (b ++ crlf).length)
      && command.second.isPrefixOf (substr (b ++ crlf) 3 4)) = false)
    (fuel k : Nat) (v0 : Bool) (strs : List (List Char)) :
    parseLoopAux command s (fuel + 1) p k v0 strs
      = (strs.set k (b ++ crlf), 0, false) := by
  have hdrop' : s.drop p = b ++ '\r' :: '\n' :: rest := by
    simpa [crlf] using hdrop
  obtain ⟨hfind, hlen⟩ := findCRLF_of_drop hdrop' hb
  have hrestpos : 0 < rest.length := List.length_pos.mpr hrest
  have hcond : ¬(findCRLF s p = subSz s.length 2) := by
    rw [hfind, subSz_eq (by omega) hs]
    omega
  have hadd : addSz (findCRLF s p) 2 = p + b.length + 2 := by
    rw [hfind, addSz_eq (by omega)]
  have hsub : subSz (addSz (findCRLF s p) 2) p = b.length + 2 := by
    rw [hadd, subSz_eq (by omega) (by omega)]
    omega
  have hsent : substr s p (subSz (addSz (findCRLF s p) 2) p) = b ++ crlf := by
    rw [hsub]
    simp only [substr]
    rw [hdrop']
    rw [show b ++ '\r' :: '\n' :: rest = (b ++ crlf) ++ rest by simp [crlf]]
    exact List.take_left' (by simp [crlf])
  rw [parseLoopAux]
  simp only [if_neg hcond, hsent, hbad]
  simp

/-- Consuming a block of valid data sentences advances the parse loop past
all of them: the cursor moves to the end of the block, vector_index grows
by their number, the sentences are stored in the output slots, and valid
holds the outcome of the last sentence check (unchanged when the block is
empty). -/
lemma parseLoopAux_consume (command : nmea_rr) (s : List Char) (hs : s.length < SZ)
    (t : List Char) (ht : t ≠ []) :
    ∀ (ds : List (List Char)) (fuel p k : Nat) (v0 : Bool) (strs : List (List Char)),
      s.drop p = ds.flatten ++ t →
      (∀ d ∈ ds, ValidSent command d) →
      parseLoopAux command s (ds.length + fuel) p k v0 strs
        = parseLoopAux command s fuel (p + ds.flatten.length) (k + ds.length)
            (v0 || !ds.isEmpty) (writeSlots strs k ds) := by
  intro ds
  induction ds with
  | nil =>
    intro fuel p k v0 strs _ _
    simp [writeSlots]
  | cons d ds ih =>
    intro fuel p k v0 strs hdrop hval
    obtain ⟨⟨b, rfl, hb⟩, hchk⟩ := hval d (by simp)
    have hdrop1 : s.drop p = (b ++ crlf) ++ (ds.flatten ++ t) := by
      simpa [List.append_assoc] using hdrop
    have hne : ds.flatten ++ t ≠ [] := by
      intro h
      rcases List.append_eq_nil.mp h with ⟨-, h2⟩
      exact ht h2
    have hstep := parseLoopAux_step_valid command s hs hdrop1 hb hne hchk
      (ds.length + fuel) k v0 strs
    have hdrop2 : s.drop (p + b.length + 2) = ds.flatten ++ t := by
      have : s.drop (p + (b.length + 2)) = (s.drop p).drop (b.length + 2) := by
        rw [List.drop_drop]
      rw [show p + b.length + 2 = p + (b.length + 2) by omega, this, hdrop1]
      exact List.drop_left' (by simp [crlf])
    have hrec := ih fuel (p + b.length + 2) (k + 1) true (strs.set k (b ++ crlf))
      hdrop2 (fun d hd => hval d (by simp [hd]))
    rw [show ((b ++ crlf) :: ds).length + fuel = (ds.length + fuel) + 1 by simp; omega]
    rw [hstep, hrec]
    have harg1 : p + b.length + 2 + ds.flatten.length
        = p + ((b ++ crlf) :: ds).flatten.length := by
      simp [crlf]
      omega
    have harg2 : k + 1 + ds.length = k + ((b ++ crlf) :: ds).length := by
      simp
      omega
    rw [harg1, harg2]
    simp [writeSlots]

/-- A Boolean prefix of a list is a prefix of any extension of it. -/
lemma isPrefixOf_extend : ∀ (a u v : List Char),
    a.isPrefixOf u = true → a.isPrefixOf (u ++ v) = true := by
  intro a
  induction a with
  | nil => intro u v _; simp
  | cons c a ih =>
    intro u v h
    cases u with
    | nil => simp at h
    | cons d u =>
      simp only [List.cons_append, List.isPrefixOf_cons₂] at h ⊢
      rcases Bool.and_eq_true_iff.mp h with ⟨h1, h2⟩
      exact Bool.and_eq_true_iff.mpr ⟨h1, ih u v h2⟩

/-- The parse loop on a structured reply that reaches the status line:
the data sentences land in the slots, count is their number, and valid is
the echo test on the status line. -/
lemma parse_structured (command : nmea_rr) (ds : List (List Char)) (u : List Char)
    (strs : List (List Char))
    (hds : ∀ d ∈ ds, ValidSent command d)
    (hu : hasCRLF u = false)
    (hlen : (ds.flatten ++ (u ++ crlf)).length < SZ)
    (hcap : ds.length < strs.length) :
    parse_multiline_reply strs (ds.flatten ++ (u ++ crlf)) command
      = (ds ++ List.replicate (strs.length - ds.length) [], ds.length,
         (echoOf command).isPrefixOf (u ++ crlf)) := by
  set s := ds.flatten ++ (u ++ crlf) with hsdef
  have hs : s.length < SZ := hlen
  obtain ⟨m, hm⟩ : ∃ m, strs.length - ds.length = m + 1 :=
    ⟨strs.length - ds.length - 1, by omega⟩
  have hdrop0 : s.drop 0 = ds.flatten ++ (u ++ crlf) := by simp [hsdef]
  have hdrop1 : s.drop (0 + ds.flatten.length) = u ++ crlf := by
    simp only [Nat.zero_add, hsdef]
    exact List.drop_left' rfl
  have hloop : parseLoopAux command s strs.length 0 0 false strs
      = (writeSlots strs 0 ds, ds.length, (echoOf command).isPrefixOf (u ++ crlf)) := by
    rw [show strs.length = ds.length + (strs.length - ds.length) by omega]
    rw [parseLoopAux_consume command s hs (u ++ crlf) (by simp [crlf]) ds
      (strs.length - ds.length) 0 0 false strs hdrop0 hds]
    rw [hm]
    rw [parseLoopAux_step_status command s hs hdrop1 hu m (0 + ds.length) (false || !ds.isEmpty)
      (writeSlots strs 0 ds)]
    simp
  have hws : writeSlots strs 0 ds = ds ++ strs.drop ds.length := by
    rw [writeSlots_eq ds strs 0 (by omega)]
    simp
  have hwslen : (writeSlots strs 0 ds).length = strs.length := writeSlots_length ds strs 0
  simp only [parse_multiline_reply, hloop]
  have hclear : clearFrom (writeSlots strs 0 ds) ds.length
      = ds ++ List.replicate (strs.length - ds.length) [] := by
    rw [clearFrom, hwslen, hws]
    congr 1
    exact List.take_left' rfl
  rw [hclear]

lemma clearFrom_length {l : List (List Char)} {n : Nat} (h : n ≤ l.length) :
    (clearFrom l n).length = l.length := by
  simp [clearFrom]
  omega

lemma clearFrom_getD_lt {l : List (List Char)} {n i : Nat} (hn : n ≤ l.length) (hi : i < n) :
    (clearFrom l n).getD i [] = l.getD i [] := by
  have htl : (l.take n).length = n := by simp; omega
  simp only [clearFrom, List.getD_eq_getElem?_getD]
  rw [List.getElem?_append_left (by rw [htl]; exact hi)]
  rw [List.getElem?_take_of_lt hi]

lemma clearFrom_getD_ge {l : List (List Char)} {n i : Nat} (hn : n ≤ l.length) (hi : n ≤ i) :
    (clearFrom l n).getD i [] = [] := by
  by_cases hil : i < l.length
  · have htl : (l.take n).length = n := by simp; omega
    simp only [clearFrom, List.getD_eq_getElem?_getD]
    rw [List.getElem?_append_right (by rw [htl]; exact hi)]
    rw [htl, List.getElem?_replicate]
    have : i - n < l.length - n := by omega
    simp [this]
  · have hout : (clearFrom l n).length ≤ i := by rw [clearFrom_length hn]; omega
    simp only [List.getD_eq_getElem?_getD]
    rw [List.getElem?_eq_none hout]
    rfl

/-- Loop invariant of the parse loop: starting at the k-th line with k
slots already filled with the extracted lines, the loop returns a
vector_index bounded by the span size, leaves the span size unchanged, and
every slot below the returned vector_index holds the corresponding
extracted line. -/
lemma parseLoopAux_inv (command : nmea_rr) (s : List Char) :
    ∀ (fuel k : Nat) (v0 : Bool) (strs : List (List Char)),
      strs.length = k + fuel →
      (∀ i, i < k → strs.getD i [] = lineAt s i) →
      (parseLoopAux command s fuel (lineStart s k) k v0 strs).2.1 ≤ strs.length ∧
      (parseLoopAux command s fuel (lineStart s k) k v0 strs).1.length = strs.length ∧
      (∀ i, i < (parseLoopAux command s fuel (lineStart s k) k v0 strs).2.1 →
        (parseLoopAux command s fuel (lineStart s k) k v0 strs).1.getD i [] = lineAt s i) := by
  intro fuel
  induction fuel with
  | zero =>
    intro k v0 strs hlen hprev
    rw [parseLoopAux]
    refine ⟨?_, rfl, ?_⟩
    · simp
      omega
    · intro i hi
      simp only at hi
      exact hprev i hi
  | succ fuel ih =>
    intro k v0 strs hlen hprev
    by_cases hcond : findCRLF s (lineStart s k) = subSz s.length 2
    · have hstep : parseLoopAux command s (fuel + 1) (lineStart s k) k v0 strs
          = (strs, k, (echoOf command).isPrefixOf
              (substr s (lineStart s k) (subSz s.length (lineStart s k)))) := by
        rw [parseLoopAux]
        rw [if_pos hcond]
      rw [hstep]
      refine ⟨?_, rfl, ?_⟩
      · simp
        omega
      · intro i hi
        simp only at hi
        exact hprev i hi
    · have hq : substr s (lineStart s k)
          (subSz (addSz (findCRLF s (lineStart s k)) 2) (lineStart s k)) = lineAt s k := rfl
      have hnext : addSz (findCRLF s (lineStart s k)) 2 = lineStart s (k + 1) := rfl
      by_cases hv : (decide (7 ≤ (lineAt s k).length)
          && command.second.isPrefixOf (substr (lineAt s k) 3 4)) = true
      · have hstep : parseLoopAux command s (fuel + 1) (lineStart s k) k v0 strs
            = parseLoopAux command s fuel (lineStart s (k + 1)) (k + 1) true
                (strs.set k (lineAt s k)) := by
          rw [parseLoopAux]
          simp only [if_neg hcond]
          simp only [hq]
          rw [if_pos hv]
          rw [hv, hnext]
        have hlen' : (strs.set k (lineAt s k)).length = (k + 1) + fuel := by
          simp [hlen]
          omega
        have hprev' : ∀ i, i < k + 1 → (strs.set k (lineAt s k)).getD i [] = lineAt s i := by
          intro i hi
          rcases Nat.lt_succ_iff_lt_or_eq.mp hi with hik | rfl
          · simp only [List.getD_eq_getElem?_getD]
            rw [List.getElem?_set_ne (by omega)]
            have := hprev i hik
            simpa [List.getD_eq_getElem?_getD] using this
          · simp only [List.getD_eq_getElem?_getD]
            rw [List.getElem?_set_self (by omega)]
            rfl
        have hres := ih (k + 1) true (strs.set k (lineAt s k)) hlen' hprev'
        rw [hstep]
        have hsetlen : (strs.set k (lineAt s k)).length = strs.length := by simp
        rw [hsetlen] at hres
        exact hres
      · have hstep : parseLoopAux command s (fuel + 1) (lineStart s k) k v0 strs
            = (strs.set k (lineAt s k), 0,
                decide (7 ≤ (lineAt s k).length)
                  && command.second.isPrefixOf (substr (lineAt s k) 3 4)) := by
          rw [parseLoopAux]
          simp only [if_neg hcond]
          simp only [hq]
          rw [if_neg hv]
        rw [hstep]
        refine ⟨by simp, by simp, ?_⟩
        intro i hi
        simp only at hi
        exact absurd hi (Nat.not_lt_zero i)

/-- A list starting with a non whitespace character is no prefix of a list
of whitespace characters. -/
lemma isPrefixOf_ws_false {c : Char} {cs l : List Char} (hc : c.isWhitespace = false)
    (hl : ∀ x ∈ l, x.isWhitespace = true) : (c :: cs).isPrefixOf l = false := by
  cases l with
  | nil => rfl
  | cons d t =>
    have hd : d.isWhitespace = true := hl d (by simp)
    have hne : c ≠ d := by
      intro h
      rw [h, hd] at hc
      exact Bool.noConfusion hc
    rw [List.isPrefixOf_cons₂]
    simp [hne]

/-- Membership in a substring implies membership in the string. -/
lemma mem_substr {l : List Char} {p n : Nat} {x : Char} (hx : x ∈ substr l p n) : x ∈ l :=
  List.drop_subset p l (List.take_subset n (l.drop p) hx)

/-- The parser rejects any all whitespace buffer (the empty one included)
for any command whose signature and echo start with a non whitespace
character: whichever branch the first iteration takes, the check fails
with count 0 and all slots cleared. -/
lemma parse_ws_core (command : nmea_rr)
    (hsig : command.second ≠ [] ∧ command.second.headI.isWhitespace = false)
    (hech : echoOf command ≠ [] ∧ (echoOf command).headI.isWhitespace = false)
    (s : List Char) (hws : ∀ x ∈ s, x.isWhitespace = true)
    (strs : List (List Char)) :
    parse_multiline_reply strs s command = (List.replicate strs.length [], 0, false) := by
  obtain ⟨c2, cs2, h2⟩ := List.exists_cons_of_ne_nil hsig.1
  have h2w : c2.isWhitespace = false := by
    have := hsig.2
    rw [h2] at this
    simpa using this
  obtain ⟨ce, cse, he⟩ := List.exists_cons_of_ne_nil hech.1
  have hew : ce.isWhitespace = false := by
    have := hech.2
    rw [he] at this
    simpa using this
  cases hstrs : strs.length with
  | zero =>
    have h0 : parseLoopAux command s strs.length 0 0 false strs = (strs, 0, false) := by
      rw [hstrs, parseLoopAux]
    simp only [parse_multiline_reply, h0]
    have hnil : strs = [] := List.length_eq_zero.mp hstrs
    subst hnil
    rfl
  | succ m =>
    by_cases hcond : findCRLF s 0 = subSz s.length 2
    · have hechoF : (echoOf command).isPrefixOf (substr s 0 (subSz s.length 0)) = false := by
        rw [he]
        exact isPrefixOf_ws_false hew (fun x hx => hws x (mem_substr hx))
      have hstep : parseLoopAux command s strs.length 0 0 false strs = (strs, 0, false) := by
        rw [hstrs, parseLoopAux]
        rw [if_pos hcond, hechoF]
      simp only [parse_multiline_reply, hstep]
      rw [clearFrom]
      simp [hstrs]
    · have hvF : (decide (7 ≤ (substr s 0 (subSz (addSz (findCRLF s 0) 2) 0)).length)
          && command.second.isPrefixOf
            (substr (substr s 0 (subSz (addSz (findCRLF s 0) 2) 0)) 3 4)) = false := by
        by_cases h7 : 7 ≤ (substr s 0 (subSz (addSz (findCRLF s 0) 2) 0)).length
        · have hpf : command.second.isPrefixOf
              (substr (substr s 0 (subSz (addSz (findCRLF s 0) 2) 0)) 3 4) = false := by
            rw [h2]
            refine isPrefixOf_ws_false h2w ?_
            intro x hx
            exact hws x (mem_substr (mem_substr hx))
          simp [hpf]
        · simp [h7]
      have hstep : parseLoopAux command s strs.length 0 0 false strs
          = (strs.set 0 (substr s 0 (subSz (addSz (findCRLF s 0) 2) 0)), 0, false) := by
        rw [hstrs, parseLoopAux]
        simp only [if_neg hcond]
        rw [if_neg (by simp [hvF]), hvF]
      simp only [parse_multiline_reply, hstep]
      rw [clearFrom]
      simp [hstrs]

end teseo

/-- C1, counterexample. A reply with exactly K = 1 valid data sentence
(capacity 2) followed by a status line that is the last bytes of the
buffer, is not separator terminated, and correctly echoes the request:
the claim demands valid = true and count = 1, but parse_multiline_reply
returns valid = false and count = 0 with every slot cleared, because its
status line test (new_string_index == s.length() - 2) only fires when the
separator ends the buffer; the unterminated tail is treated as a data
sentence and fails the signature check. -/
theorem c1_counterexample :
    teseo.parse_multiline_reply [[], []]
      (chars ("$GPGLL,4916.45,N,12311.12,W*50\r\n$PSTMNMEAREQUEST,100000,0*"))
      teseo.gll = ([[], []], 0, false) := by
  rfl

/-- C2, counterexample. With the Read slot returning exactly the literal
bytes of the claim (status line not separator terminated), ask_gll
returns valid = false and hands back the empty string, not the GLL
sentence: the status line detection of parse_multiline_reply never fires
on a buffer whose last bytes are not the separator. The request is still
written through the Write slot. -/
theorem c2_counterexample :
    teseo.ask_gll (chars ("$GPGLL,4916.45,N,12311.12,W*50\r\n$PSTMNMEAREQUEST,100000,0*"))
      = ⟨[teseo.gll.first], [], false, [[], []]⟩ := by
  rfl

/-- C2, amended. When the Read slot returns the same bytes with the status
line terminated by the separator as the last two bytes of the buffer,
ask_gll returns valid = true and yields the GLL sentence (separator
included, exactly as stored by the parser) in the output string, after
writing the GLL request through the Write slot. -/
theorem c2_amended_ask_gll :
    teseo.ask_gll (chars ("$GPGLL,4916.45,N,12311.12,W*50\r\n$PSTMNMEAREQUEST,100000,0*\r\n"))
      = ⟨[teseo.gll.first], chars ("$GPGLL,4916.45,N,12311.12,W*50\r\n"), true,
          [chars ("$GPGLL,4916.45,N,12311.12,W*50\r\n"), []]⟩ := by
  rfl

/-- C3, code bug witness. A reply holding two valid data sentences and a
terminated status line, parsed with capacity 1: capacity is exhausted on
data lines before the status line is reached, yet parse_multiline_reply
returns valid = true (left over from the last successful data sentence
check) and count = 1, contradicting both the claim and the source's own
comment that the implementation "will reply false if there are more
answers than strings.size()". -/
theorem c3_capacity_exhausted_returns_true :
    teseo.parse_multiline_reply [[]]
      (chars ("$GPGLL,A*1\r\n$GPGLL,B*2\r\n$PSTMNMEAREQUEST,100000,0*\r\n"))
      teseo.gll = ([chars ("$GPGLL,A*1\r\n")], 1, true) := by
  rfl

/-- C4, counterexample. A reply with one valid data sentence followed by a
terminated status line that does not echo the request: validation fails at
the status line and parse_multiline_reply returns valid = false, but
count = 1 (the number of data lines parsed), not 0 as the claim demands. -/
theorem c4_counterexample :
    teseo.parse_multiline_reply [[], []] (chars ("$GPGLL,A*1\r\nWRONG\r\n")) teseo.gll
      = ([chars ("$GPGLL,A*1\r\n"), []], 1, false) := by
  rfl

/-- C1, amended. For every reply holding exactly K valid data sentences
(each a separator free body followed by the separator, length at least 7,
signature at offset 3) followed by a status/echo line that IS terminated by
the separator as the last two bytes of the buffer and that starts with the
request minus its trailing terminator, with either K < capacity, or
K = capacity and K > 0, parse_multiline_reply returns valid = true and
count = K, with all output positions at index K and beyond cleared to
empty. (Relative to the claim: the status line must carry the final
separator, and the degenerate case K = capacity = 0 is excluded, where the
loop never runs and valid stays false.) -/
theorem c1_parse_wellformed_reply (command : teseo.nmea_rr) (ds : List (List Char))
    (u : List Char) (strs : List (List Char))
    (hds : ∀ d ∈ ds, teseo.ValidSent command d)
    (hu : hasCRLF u = false)
    (hecho : (teseo.echoOf command).isPrefixOf u = true)
    (hlen : (ds.flatten ++ (u ++ crlf)).length < SZ)
    (hcap : ds.length < strs.length ∨ (ds.length = strs.length ∧ ds ≠ [])) :
    teseo.parse_multiline_reply strs (ds.flatten ++ (u ++ crlf)) command
      = (ds ++ List.replicate (strs.length - ds.length) [], ds.length, true) := by
  rcases hcap with hlt | ⟨heq, hne⟩
  · rw [teseo.parse_structured command ds u strs hds hu hlen hlt,
      teseo.isPrefixOf_extend _ _ _ hecho]
  · have hs : (ds.flatten ++ (u ++ crlf)).length < SZ := hlen
    have hdrop0 : (ds.flatten ++ (u ++ crlf)).drop 0 = ds.flatten ++ (u ++ crlf) := by simp
    have hloop : teseo.parseLoopAux command (ds.flatten ++ (u ++ crlf)) strs.length 0 0 false strs
        = (teseo.writeSlots strs 0 ds, ds.length, true) := by
      rw [show strs.length = ds.length + 0 by omega]
      rw [teseo.parseLoopAux_consume command (ds.flatten ++ (u ++ crlf)) hs (u ++ crlf)
        (by simp [crlf]) ds 0 0 0 false strs hdrop0 hds]
      rw [teseo.parseLoopAux]
      cases ds with
      | nil => exact absurd rfl hne
      | cons d ds' => simp
    simp only [teseo.parse_multiline_reply, hloop]
    have hws : teseo.writeSlots strs 0 ds = ds ++ strs.drop ds.length := by
      rw [teseo.writeSlots_eq ds strs 0 (by omega)]
      simp
    have hdropnil : strs.drop ds.length = [] := by
      rw [heq]
      simp
    rw [teseo.clearFrom, teseo.writeSlots_length, hws, hdropnil]
    simp [heq]

/-- C1, witness: a concrete reply with one valid GLL sentence, capacity 2,
and a separator terminated status line echoing the GLL request parses to
valid = true, count = 1, second slot cleared. -/
theorem c1_witness :
    teseo.parse_multiline_reply [[], []]
      (chars ("$GPGLL,A*1\r\n$PSTMNMEAREQUEST,100000,0*\r\n")) teseo.gll
      = ([chars ("$GPGLL,A*1\r\n"), []], 1, true) := by
  have h := c1_parse_wellformed_reply teseo.gll [chars ("$GPGLL,A*1") ++ crlf]
    (chars ("$PSTMNMEAREQUEST,100000,0*")) [[], []]
    (by
      intro d hd
      simp only [List.mem_singleton] at hd
      subst hd
      exact ⟨⟨chars ("$GPGLL,A*1"), rfl, by decide⟩, by decide⟩)
    (by decide) (by decide) (by decide) (Or.inl (by decide))
  exact h

/-- C4, amended. When validation fails at the status/echo line (the reply
holds K valid data sentences, K < capacity, followed by a separator
terminated final line that does not start with the request echo),
parse_multiline_reply returns valid = false with count = K, the number of
data lines parsed before the status line — count is reset to 0 only when a
data sentence itself is malformed, not on a status line failure. -/
theorem c4_status_failure_count (command : teseo.nmea_rr) (ds : List (List Char))
    (u : List Char) (strs : List (List Char))
    (hds : ∀ d ∈ ds, teseo.ValidSent command d)
    (hu : hasCRLF u = false)
    (hecho : (teseo.echoOf command).isPrefixOf (u ++ crlf) = false)
    (hlen : (ds.flatten ++ (u ++ crlf)).length < SZ)
    (hcap : ds.length < strs.length) :
    teseo.parse_multiline_reply strs (ds.flatten ++ (u ++ crlf)) command
      = (ds ++ List.replicate (strs.length - ds.length) [], ds.length, false) := by
  rw [teseo.parse_structured command ds u strs hds hu hlen hcap, hecho]

/-- C4, witness: one valid GLL sentence followed by a status line that does
not echo the request gives valid = false and count = 1. -/
theorem c4_witness :
    teseo.parse_multiline_reply [[], []] (chars ("$GPGLL,A*1\r\nNOPE\r\n")) teseo.gll
      = ([chars ("$GPGLL,A*1\r\n"), []], 1, false) := by
  have h := c4_status_failure_count teseo.gll [chars ("$GPGLL,A*1") ++ crlf]
    (chars ("NOPE")) [[], []]
    (by
      intro d hd
      simp only [List.mem_singleton] at hd
      subst hd
      exact ⟨⟨chars ("$GPGLL,A*1"), rfl, by decide⟩, by decide⟩)
    (by decide) (by decide) (by decide) (by decide)
  exact h

/-- C5, confirmed. For every reply formed of well formed data sentences
followed by a data sentence that fails the validity check (length below 7
or signature mismatch) at position i < capacity, with at least one byte
following its separator, parse_multiline_reply aborts at that sentence:
valid = false, count = 0, and every output slot is cleared, no matter what
the following bytes hold. -/
theorem c5_malformed_aborts (command : teseo.nmea_rr) (ds : List (List Char))
    (b rest : List Char) (strs : List (List Char))
    (hds : ∀ d ∈ ds, teseo.ValidSent command d)
    (hb : hasCRLF b = false)
    (hbad : (decide (7 ≤ (b ++ crlf).length)
      && command.second.isPrefixOf (substr (b ++ crlf) 3 4)) = false)
    (hrest : rest ≠ [])
    (hlen : (ds.flatten ++ ((b ++ crlf) ++ rest)).length < SZ)
    (hcap : ds.length < strs.length) :
    teseo.parse_multiline_reply strs (ds.flatten ++ ((b ++ crlf) ++ rest)) command
      = (List.replicate strs.length [], 0, false) := by
  set s := ds.flatten ++ ((b ++ crlf) ++ rest) with hsdef
  have hs : s.length < SZ := hlen
  obtain ⟨m, hm⟩ : ∃ m, strs.length - ds.length = m + 1 :=
    ⟨strs.length - ds.length - 1, by omega⟩
  have hdrop0 : s.drop 0 = ds.flatten ++ ((b ++ crlf) ++ rest) := by simp [hsdef]
  have hdrop1 : s.drop (0 + ds.flatten.length) = (b ++ crlf) ++ rest := by
    simp only [Nat.zero_add, hsdef]
    exact List.drop_left' rfl
  have hloop : teseo.parseLoopAux command s strs.length 0 0 false strs
      = ((teseo.writeSlots strs 0 ds).set (0 + ds.length) (b ++ crlf), 0, false) := by
    rw [show strs.length = ds.length + (strs.length - ds.length) by omega]
    rw [teseo.parseLoopAux_consume command s hs ((b ++ crlf) ++ rest)
      (by simp [crlf]) ds (strs.length - ds.length) 0 0 false strs hdrop0 hds]
    rw [hm]
    rw [teseo.parseLoopAux_step_invalid command s hs hdrop1 hb hrest hbad m
      (0 + ds.length) (false || !ds.isEmpty) (teseo.writeSlots strs 0 ds)]
  simp only [teseo.parse_multiline_reply, hloop]
  rw [teseo.clearFrom]
  simp [teseo.writeSlots_length]

/-- C5, witness: a valid GLL sentence followed by the malformed sentence
BAD (length below 7) and further bytes aborts with valid = false,
count = 0, all slots cleared. -/
theorem c5_witness :
    teseo.parse_multiline_reply [[], []] (chars ("$GPGLL,A*1\r\nBAD\r\nX")) teseo.gll
      = ([[], []], 0, false) := by
  have h := c5_malformed_aborts teseo.gll [chars ("$GPGLL,A*1") ++ crlf]
    (chars ("BAD")) (chars ("X")) [[], []]
    (by
      intro d hd
      simp only [List.mem_singleton] at hd
      subst hd
      exact ⟨⟨chars ("$GPGLL,A*1"), rfl, by decide⟩, by decide⟩)
    (by decide) (by decide) (by decide) (by decide) (by decide)
  exact h

/-- C6, confirmed. For the empty reply buffer and any whitespace only
buffer, for every registry command descriptor (the six constants gll, gsv,
gsa, gga, rmc, vtg) and every capacity, parse_multiline_reply returns
valid = false and count = 0, with every slot cleared: whitespace can never
carry the signature at offset 3 nor the echoed request of the status line. -/
theorem c6_whitespace_invalid (command : teseo.nmea_rr)
    (hcmd : command = teseo.gll ∨ command = teseo.gsv ∨ command = teseo.gsa ∨
      command = teseo.gga ∨ command = teseo.rmc ∨ command = teseo.vtg)
    (s : List Char) (hws : ∀ x ∈ s, x.isWhitespace = true)
    (strs : List (List Char)) :
    teseo.parse_multiline_reply strs s command
      = (List.replicate strs.length [], 0, false) := by
  rcases hcmd with rfl | rfl | rfl | rfl | rfl | rfl <;>
    exact teseo.parse_ws_core _ ⟨by decide, by decide⟩ ⟨by decide, by decide⟩ s hws strs

/-- C6, witness: the whitespace buffer of a space, a separator and a tab,
parsed with capacity 2 against the GLL descriptor, gives count 0, valid
false, slots cleared; the empty buffer behaves the same. -/
theorem c6_witness :
    teseo.parse_multiline_reply [[], []] (chars (" \r\n\t")) teseo.gll = ([[], []], 0, false)
    ∧ teseo.parse_multiline_reply [[], []] [] teseo.gll = ([[], []], 0, false) := by
  constructor
  · exact c6_whitespace_invalid teseo.gll (Or.inl rfl) (chars (" \r\n\t")) (by decide) [[], []]
  · exact c6_whitespace_invalid teseo.gll (Or.inl rfl) [] (by decide) [[], []]

/-- C9, confirmed. For every input buffer, command descriptor and
caller supplied span, parse_multiline_reply returns a count bounded by the
span size, writes only within the span (the output has the span's length),
fills slots below count with exactly the extracted lines of the buffer,
and sets every slot at index at or beyond count to the empty string. -/
theorem c9_parse_span_invariants (command : teseo.nmea_rr) (s : List Char)
    (strs : List (List Char)) :
    (teseo.parse_multiline_reply strs s command).2.1 ≤ strs.length ∧
    (teseo.parse_multiline_reply strs s command).1.length = strs.length ∧
    (∀ i, i < (teseo.parse_multiline_reply strs s command).2.1 →
      (teseo.parse_multiline_reply strs s command).1.getD i [] = teseo.lineAt s i) ∧
    (∀ i, (teseo.parse_multiline_reply strs s command).2.1 ≤ i →
      (teseo.parse_multiline_reply strs s command).1.getD i [] = []) := by
  have hls : teseo.lineStart s 0 = 0 := rfl
  have hinv := teseo.parseLoopAux_inv command s strs.length 0 false strs (by omega)
    (by intro i hi; exact absurd hi (Nat.not_lt_zero i))
  rw [hls] at hinv
  obtain ⟨hcount, hlen, hfill⟩ := hinv
  have hcl : (teseo.parseLoopAux command s strs.length 0 0 false strs).2.1
      ≤ (teseo.parseLoopAux command s strs.length 0 0 false strs).1.length := by
    omega
  refine ⟨?_, ?_, ?_, ?_⟩
  · simpa [teseo.parse_multiline_reply] using hcount
  · simp only [teseo.parse_multiline_reply]
    rw [teseo.clearFrom_length hcl]
    exact hlen
  · intro i hi
    simp only [teseo.parse_multiline_reply] at hi ⊢
    rw [teseo.clearFrom_getD_lt hcl hi]
    exact hfill i hi
  · intro i hi
    simp only [teseo.parse_multiline_reply] at hi ⊢
    exact teseo.clearFrom_getD_ge hcl hi

/-- C9, witness: the invariants instantiated on a concrete two sentence
GSV style buffer with capacity 2: count stays within the span, the output
keeps the span's length, and the slot at index count is empty. -/
theorem c9_witness :
    (teseo.parse_multiline_reply [[], []] (chars ("$GPGSV,A*1\r\nTAIL\r\n")) teseo.gsv).2.1
        ≤ ([[], []] : List (List Char)).length ∧
    (teseo.parse_multiline_reply [[], []] (chars ("$GPGSV,A*1\r\nTAIL\r\n")) teseo.gsv).1.length
        = ([[], []] : List (List Char)).length ∧
    (teseo.parse_multiline_reply [[], []] (chars ("$GPGSV,A*1\r\nTAIL\r\n")) teseo.gsv).1.getD 1 []
        = [] := by
  have h := c9_parse_span_invariants teseo.gsv (chars ("$GPGSV,A*1\r\nTAIL\r\n")) [[], []]
  exact ⟨h.1, h.2.1, h.2.2.2 1 (by decide)⟩

/-- The restart wait loop reaches the first index whose read fails the
continuation condition. -/
lemma restartWait_stop (f : Nat → List Char) :
    ∀ (d k : Nat), (∀ j, k ≤ j → j < k + d → teseo.restartContinue (f j) = true) →
      teseo.restartContinue (f (k + d)) = false →
      teseo.restartWait f (d + 1) k = some (k + d) := by
  intro d
  induction d with
  | zero =>
    intro k _ hstop
    rw [Nat.add_zero] at hstop
    rw [teseo.restartWait, if_neg (by simp [hstop])]
    simp
  | succ d ih =>
    intro k hcont hstop
    rw [teseo.restartWait, if_pos (hcont k le_rfl (by omega))]
    have hrec := ih (k + 1) (fun j hj1 hj2 => hcont j (by omega) (by omega))
      (by rw [show k + 1 + d = k + (d + 1) by omega]; exact hstop)
    rw [hrec]
    congr 1
    omega

/-- C7, confirmed. The restart wait loop at the end of init exits exactly
on a read that is empty or contains the restart echo token: the loop's
continuation condition fails precisely for those reads, and when some read
satisfies it, the loop stops at the first such read — in particular a Read
handler that eventually returns an empty buffer terminates the loop. -/
theorem c7_restart_loop_terminates :
    (∀ s : List Char, teseo.restartContinue s = false ↔
      (s = [] ∨ findSub s teseo.restartToken ≠ npos)) ∧
    (∀ (f : Nat → List Char) (h : ∃ n, teseo.restartContinue (f n) = false),
      teseo.restartWait f (Nat.find h + 1) 0 = some (Nat.find h) ∧
      teseo.restartContinue (f (Nat.find h)) = false ∧
      (∀ j, j < Nat.find h → teseo.restartContinue (f j) = true)) := by
  constructor
  · intro s
    rw [teseo.restartContinue]
    constructor
    · intro h
      rcases Bool.and_eq_false_iff.mp h with h1 | h2
      · left
        have : ¬(s.length ≠ 0) := by simpa using h1
        have hlen : s.length = 0 := by omega
        exact List.length_eq_zero.mp hlen
      · right
        simpa using h2
    · intro h
      rcases h with rfl | hfind
      · simp
      · simp [hfind]
  · intro f h
    refine ⟨?_, Nat.find_spec h, ?_⟩
    · have hstop : teseo.restartContinue (f (0 + Nat.find h)) = false := by
        rw [Nat.zero_add]
        exact Nat.find_spec h
      have hcont : ∀ j, 0 ≤ j → j < 0 + Nat.find h → teseo.restartContinue (f j) = true := by
        intro j _ hj
        rw [Nat.zero_add] at hj
        have := Nat.find_min h hj
        simpa using this
      have := restartWait_stop f (Nat.find h) 0 hcont hstop
      simpa using this
    · intro j hj
      have := Nat.find_min h hj
      simpa using this

/-- C7, witness: a Read handler that always returns the empty buffer makes
the restart wait loop stop at its very first read. -/
theorem c7_witness :
    teseo.restartWait (fun _ => []) 1 0 = some 0 := by
  have h : ∃ n, teseo.restartContinue ((fun _ => ([] : List Char)) n) = false :=
    ⟨0, by decide⟩
  have h0 : Nat.find h = 0 := by
    rw [Nat.find_eq_zero]
    decide
  have hmain := (c7_restart_loop_terminates.2 (fun _ => []) h).1
  rw [h0] at hmain
  exact hmain

/-- C8, confirmed. init asserts the Write, Read and Reset slots in that
order before any other statement: the run is marked as a contract
violation exactly when one of the three slots is unarmed, and with an
unarmed Reset slot the violation aborts init before any write and before
the reset fires. -/
theorem c8_init_asserts_before_actions :
    ∀ (wArmed rArmed resArmed : Bool) (f : Nat → List Char) (fuel : Nat),
      ((teseo.init wArmed rArmed resArmed f fuel).violated
          = !(wArmed && rArmed && resArmed)) ∧
      teseo.init wArmed rArmed false f fuel = ⟨true, 0, [], none⟩ := by
  intro wArmed rArmed resArmed f fuel
  cases wArmed <;> cases rArmed <;> cases resArmed <;>
    simp [teseo.init, teseo.initProgram, teseo.runInit]

/-- C10, confirmed. Callback::call on a slot whose handler is unset
returns immediately without invoking any handler: the void branch leaves
the observable state untouched, and the arithmetic branch returns 0 with
the state untouched, so an unarmed slot never dereferences a null
handler. -/
theorem c10_unset_callback_noop :
    ∀ (α σ : Type) (a : α) (st : σ),
      callbackmanager.callVoid (none : Option (α → σ → σ)) a st = st ∧
      callbackmanager.callArith (none : Option (α → σ → σ × Int)) a st = (st, 0) := by
  intro α σ a st
  exact ⟨rfl, rfl⟩
